import Mathlib

/-!
Shallow embedding of the chat-session store and quota-tracking logic of the
design24-aichat front-end, together with proofs of its specified properties.

The Session Store definitions follow `useChatSessions` (chat-session CRUD
with a 200-message FIFO cap, title derivation and "replace last assistant
block" semantics).  The Quota Tracker definitions follow
`secureRateLimiting.ts` (daily per-role counters with day/device
reconciliation, XOR-plus-base64 obfuscation) and the legacy
`rateLimiting.ts` service.  Browser-environment effects (localStorage,
Date.now, the JSON codec) are made explicit: stored values, clocks and
generated ids are passed as arguments, and JSON parsing is a function
argument returning `Option` (`none` models a thrown `SyntaxError`).
-/

namespace Design24

namespace SessionStore

/-- One chat message, as in the `ChatMessage` interface of the hook. -/
structure ChatMessage where
  id : String
  message : String
  isUser : Bool
  timestamp : Nat
  images : Option (List String) := none
deriving DecidableEq, Repr

/-- One chat session, as in the `ChatSession` interface of the hook. -/
structure ChatSession where
  id : String
  title : String
  lastMessage : String
  timestamp : Nat
  messageCount : Nat
  messages : List ChatMessage
  isCustomTitle : Bool
deriving DecidableEq, Repr

def MAX_MESSAGES_PER_CHAT : Nat := 200

/-- JavaScript `s.substring(0, n)`: the first `n` characters. -/
def substring0 (s : String) (n : Nat) : String := ⟨s.data.take n⟩

/-- JavaScript `s.trim()`: strip leading and trailing whitespace. -/
def trimStr (s : String) : String :=
  ⟨((s.data.dropWhile Char.isWhitespace).reverse.dropWhile
      Char.isWhitespace).reverse⟩

/-- `createNewChat`: the freshly allocated session record.  The generated id
and `Date.now()` are passed in explicitly. -/
def createNewChat (newChatId : String) (now : Nat) : ChatSession :=
  { id := newChatId
    title := "New Chat"
    lastMessage := ""
    timestamp := now
    messageCount := 0
    messages := []
    isCustomTitle := false }

/-- `addMessage`, acting on one session: append the new message, apply the
200-message FIFO cap (`splice(0, len - MAX)` is `List.drop`), derive the
title from a first user message while the title is still the default, and
update the preview/timestamp/count fields. -/
def addMessage (session : ChatSession) (messageId : String) (now : Nat)
    (message : String) (isUser : Bool) (images : Option (List String)) :
    ChatSession :=
  let newMessage : ChatMessage :=
    { id := messageId, message := message, isUser := isUser, timestamp := now,
      images := images }
  let messages0 := session.messages ++ [newMessage]
  let messages :=
    if messages0.length > MAX_MESSAGES_PER_CHAT then
      messages0.drop (messages0.length - MAX_MESSAGES_PER_CHAT)
    else messages0
  let title :=
    if session.title == "New Chat" && isUser && !(trimStr message == "")
        && !session.isCustomTitle then
      (if message.length > 50 then substring0 message 47 ++ "..." else message)
    else session.title
  { session with
    title := title
    lastMessage := substring0 message 100
    timestamp := now
    messageCount := messages.length
    messages := messages }

/-- `renameChatSession`, acting on one session: `newTitle.trim() ||
'Untitled Chat'`, and the custom-title flag is set permanently. -/
def renameChatSession (session : ChatSession) (newTitle : String) :
    ChatSession :=
  { session with
    title := if trimStr newTitle == "" then "Untitled Chat" else trimStr newTitle
    isCustomTitle := true }

/-- Index of the first user message of a list, scanning from the front;
mirrors one step of the backwards `for` loop of
`replaceLastAssistantMessage` once the list is reversed. -/
def firstUserIdx : List ChatMessage → Option Nat
  | [] => none
  | m :: rest =>
    if m.isUser then some 0 else (firstUserIdx rest).map (· + 1)

/-- The `lastUserIndex` computed by the backwards scan of
`replaceLastAssistantMessage`: the greatest index holding a user message. -/
def lastUserIdx (messages : List ChatMessage) : Option Nat :=
  (firstUserIdx messages.reverse).map (fun j => messages.length - 1 - j)

/-- `replaceLastAssistantMessage`, acting on one session.  The source
returns the state unchanged when the message list is empty; otherwise it
finds the last user message, takes the contiguous block of assistant
messages after it (`[firstAssistantIndex, cursor)`), and either appends a
new assistant message (no message after the last user), inserts one (next
item is a user message), or rewrites the first assistant message in place
and splices away the rest of the block. -/
def replaceLastAssistantMessage (session : ChatSession) (newId : String)
    (now : Nat) (newMessageText : String) : ChatSession :=
  if session.messages = [] then session
  else
    let messages := session.messages
    let firstAssistantIndex :=
      match lastUserIdx messages with
      | some i => i + 1
      | none => 0
    let blockLen :=
      ((messages.drop firstAssistantIndex).takeWhile (fun m => !m.isUser)).length
    let cursor := firstAssistantIndex + blockLen
    let newAssistant : ChatMessage :=
      { id := newId, message := newMessageText, isUser := false,
        timestamp := now, images := none }
    let messages' :=
      match messages.drop firstAssistantIndex with
      | [] => messages ++ [newAssistant]
      | m :: _ =>
        if m.isUser then
          messages.take (firstAssistantIndex + 1) ++ [newAssistant] ++
            messages.drop (firstAssistantIndex + 1)
        else
          (messages.take firstAssistantIndex ++
            [{ m with message := newMessageText, timestamp := now }]) ++
            messages.drop cursor
    { session with
      lastMessage := substring0 newMessageText 100
      timestamp := now
      messages := messages'
      messageCount := messages'.length }

/-- The whole store owned by the hook: the session map (in key-insertion
order, as JavaScript object iteration yields it) and the current-session
pointer. -/
structure SessionMap where
  sessions : List ChatSession
  currentChatId : Option String
deriving DecidableEq, Repr

/-- `sessions.sort((a, b) => b.timestamp - a.timestamp)[0]`: the session
with the greatest timestamp, the earliest such in iteration order (the sort
is stable). -/
def mostRecent (l : List ChatSession) : Option ChatSession :=
  l.foldl
    (fun best s =>
      match best with
      | none => some s
      | some b => if s.timestamp > b.timestamp then some s else some b)
    none

/-- `deleteChatSession`: remove the session; when it was current, the
most-recently-updated remaining session becomes current, or the pointer is
cleared when none remain. -/
def deleteChatSession (st : SessionMap) (chatId : String) : SessionMap :=
  let updated := st.sessions.filter (fun s => s.id != chatId)
  let current :=
    if st.currentChatId = some chatId then
      match mostRecent updated with
      | some m => some m.id
      | none => none
    else st.currentChatId
  { sessions := updated, currentChatId := current }

/-- The initial-load effect of `useChatSessions`: read the stored blob,
parse it (a thrown parse error is caught, leaving the initial empty state),
and select the most recent session as current.  `parse` stands for
`JSON.parse` at the session-map type, `none` modelling a throw. -/
def useChatSessionsInit (parse : String → Option (List ChatSession))
    (stored : Option String) : SessionMap :=
  match stored with
  | none => { sessions := [], currentChatId := none }
  | some raw =>
    match parse raw with
    | none => { sessions := [], currentChatId := none }
    | some sessions =>
      { sessions := sessions, currentChatId := (mostRecent sessions).map (·.id) }

/-- Uninterpreted input of one `addMessage` call (generated id, clock, and
the caller-supplied fields). -/
structure MsgInput where
  id : String
  message : String
  isUser : Bool
  timestamp : Nat
  images : Option (List String)
deriving DecidableEq, Repr

def mkMessage (inp : MsgInput) : ChatMessage :=
  { id := inp.id, message := inp.message, isUser := inp.isUser,
    timestamp := inp.timestamp, images := inp.images }

/-- A sequence of `addMessage` calls on one session. -/
def appendAll (s : ChatSession) (l : List MsgInput) : ChatSession :=
  l.foldl
    (fun acc inp =>
      addMessage acc inp.id inp.timestamp inp.message inp.isUser inp.images)
    s

end SessionStore

namespace Quota

/-- The three user tiers of `types/auth.ts`. -/
inductive UserRole
  | admin
  | user
  | beta
deriving DecidableEq, Repr

/-- `USER_ROLE_CONFIGS[role].dailyLimit`; `-1` is the unlimited sentinel. -/
def dailyLimit : UserRole → Int
  | .admin => -1
  | .user => 30
  | .beta => 30

/-- The per-role counter record `Record<UserRole, number>`. -/
structure Usage where
  admin : Nat
  user : Nat
  beta : Nat
deriving DecidableEq, Repr

def Usage.get (u : Usage) : UserRole → Nat
  | .admin => u.admin
  | .user => u.user
  | .beta => u.beta

def Usage.set (u : Usage) : UserRole → Nat → Usage
  | .admin, n => { u with admin := n }
  | .user, n => { u with user := n }
  | .beta, n => { u with beta := n }

def zeroUsage : Usage := { admin := 0, user := 0, beta := 0 }

/-- The decrypted JSON blob stored by `secureRateLimiting` under
`secure_rate_limit`. -/
structure StoredData where
  usage : Usage
  date : String
  deviceId : String
deriving DecidableEq, Repr

/-- The record returned by `getRateLimitInfo`. -/
structure RateLimitInfo where
  role : UserRole
  usedToday : Nat
  dailyLimit : Int
  isUnlimited : Bool
  remaining : Int
deriving DecidableEq, Repr

/-- The record written by `resetDailyUsage`: all counters zero, stamped
with today's date and the current device id. -/
def resetData (today deviceId : String) : StoredData :=
  { usage := zeroUsage, date := today, deviceId := deviceId }

/-- `checkAndResetIfNewDay`: reset when there is no stored record, the
device id differs, or the stored date differs from today.  `today` models
`new Date().toDateString()` and `deviceId` models `getDeviceId()`. -/
def checkAndResetIfNewDay (today deviceId : String)
    (stored : Option StoredData) : Option StoredData :=
  match stored with
  | none => some (resetData today deviceId)
  | some d =>
    if d.deviceId ≠ deviceId then some (resetData today deviceId)
    else if d.date ≠ today then some (resetData today deviceId)
    else some d

/-- `getRateLimitInfo`: reconcile, then read the counters (missing data
falls back to all-zero).  Returns the info plus the stored record
afterwards. -/
def getRateLimitInfo (role : UserRole) (today deviceId : String)
    (stored : Option StoredData) : RateLimitInfo × Option StoredData :=
  let stored' := checkAndResetIfNewDay today deviceId stored
  let usage :=
    match stored' with
    | some d => d.usage
    | none => zeroUsage
  let dl := dailyLimit role
  let usedToday : Nat := usage.get role
  let isUnlimited : Bool := dl == -1
  let remaining : Int :=
    if isUnlimited then -1 else max 0 (dl - (usedToday : Int))
  ({ role := role, usedToday := usedToday, dailyLimit := dl,
     isUnlimited := isUnlimited, remaining := remaining }, stored')

/-- `incrementUsage`: reconcile, bump the role's counter by one, and store
the result stamped with today's date and the current device id. -/
def incrementUsage (role : UserRole) (today deviceId : String)
    (stored : Option StoredData) : Option StoredData :=
  let stored' := checkAndResetIfNewDay today deviceId stored
  let usage :=
    match stored' with
    | some d => d.usage
    | none => zeroUsage
  let usage' := usage.set role (usage.get role + 1)
  some { usage := usage', date := today, deviceId := deviceId }

/-- One entry of the `serverValidation` cache. -/
structure CacheEntry where
  valid : Bool
  timestamp : Nat
deriving DecidableEq, Repr

/-- The validation cache object, in key-insertion order. -/
abbrev VCache : Type := List (String × CacheEntry)

def CACHE_DURATION : Int := 5 * 60 * 1000

def roleString : UserRole → String
  | .admin => "admin"
  | .user => "user"
  | .beta => "beta"

def cacheKey (deviceId : String) (role : UserRole) : String :=
  deviceId ++ "_" ++ roleString role

/-- `isCacheValid`: the entry is younger than five minutes. -/
def isCacheValid (now ts : Nat) : Bool :=
  (now : Int) - (ts : Int) < CACHE_DURATION

def lookupCache (cache : VCache) (k : String) : Option CacheEntry :=
  (List.find? (fun p => p.1 == k) cache).map (·.2)

/-- Assignment `cached[cacheKey] = e` on the cache object. -/
def setCache (cache : VCache) (k : String) (e : CacheEntry) : VCache :=
  if (List.find? (fun p => p.1 == k) cache).isSome then
    List.map (fun p => if p.1 == k then (k, e) else p) cache
  else cache ++ [(k, e)]

/-- `mockServerValidation` resolves with `valid := true` for every input. -/
def mockServerValidation (_deviceId : String) (_role : UserRole) : Bool :=
  true

/-- `validateRateLimit`: serve a fresh cached verdict, else consult the
(mock) server and cache its verdict. -/
def validateRateLimit (now : Nat) (deviceId : String) (role : UserRole)
    (cache : VCache) : Bool × VCache :=
  let k := cacheKey deviceId role
  match lookupCache cache k with
  | some e =>
    if isCacheValid now e.timestamp then (e.valid, cache)
    else
      let isValid := mockServerValidation deviceId role
      (isValid, setCache cache k { valid := isValid, timestamp := now })
  | none =>
    let isValid := mockServerValidation deviceId role
    (isValid, setCache cache k { valid := isValid, timestamp := now })

/-- `canSendMessage`: the local unlimited-or-remaining check, short-circuit
on failure, else conjoined with the server check. -/
def canSendMessage (role : UserRole) (today deviceId : String) (now : Nat)
    (stored : Option StoredData) (cache : VCache) :
    Bool × Option StoredData × VCache :=
  let res := getRateLimitInfo role today deviceId stored
  let localCheck := res.1.isUnlimited || res.1.remaining > 0
  if !localCheck then (false, res.2, cache)
  else
    let server := validateRateLimit now deviceId role cache
    (localCheck && server.1, res.2, server.2)

/-- `getStoredData` of `secureRateLimiting`: read the raw blob, decrypt it
and parse it; a parse failure is caught and yields `null`.  `parseJson`
models `JSON.parse` at the stored-data type (`none` is a throw) and
`decryptS` the string-level decryption. -/
def getStoredData (parseJson : String → Option StoredData)
    (decryptS : String → String) (raw : Option String) : Option StoredData :=
  match raw with
  | none => none
  | some s => parseJson (decryptS s)

/-- How a raw stored string looks through `JSON.parse`: absent, present
but throwing on parse, or parsing to a value.  Used for the legacy
`rateLimiting.ts` service, which parses without a catch. -/
inductive StoredCell (α : Type)
  | absent
  | malformed
  | valid (a : α)
deriving DecidableEq, Repr

/-- Legacy `rateLimiting.ts` state: the `rate_limit_data` cell and the
`rate_limit_date` cell. -/
structure LegacyState where
  usageCell : StoredCell Usage
  dateCell : Option String
deriving DecidableEq, Repr

/-- Legacy `getStoredUsage`: absent data falls back to zeros, but a stored
value that fails to parse makes `JSON.parse` throw, uncaught — modelled as
`Except.error`. -/
def legacyGetStoredUsage : StoredCell Usage → Except Unit Usage
  | .absent => .ok zeroUsage
  | .malformed => .error ()
  | .valid u => .ok u

/-- Legacy `checkAndResetIfNewDay`: on a date mismatch, overwrite the
usage cell with zeros and the date cell with today. -/
def legacyCheckAndResetIfNewDay (today : String) (st : LegacyState) :
    LegacyState :=
  if st.dateCell ≠ some today then
    { usageCell := .valid zeroUsage, dateCell := some today }
  else st

/-- Legacy `getRateLimitInfo`: reconcile, then read the counters; a parse
exception from `getStoredUsage` propagates to the caller. -/
def legacyGetRateLimitInfo (role : UserRole) (today : String)
    (st : LegacyState) : Except Unit (RateLimitInfo × LegacyState) :=
  let st' := legacyCheckAndResetIfNewDay today st
  match legacyGetStoredUsage st'.usageCell with
  | .error e => .error e
  | .ok usage =>
    let dl := dailyLimit role
    let usedToday := usage.get role
    let isUnlimited : Bool := dl == -1
    let remaining : Int := if isUnlimited then -1 else max 0 (dl - usedToday)
    .ok ({ role := role, usedToday := usedToday, dailyLimit := dl,
           isUnlimited := isUnlimited, remaining := remaining }, st')

end Quota

namespace Obfuscation

/-- Character codes of `ENCRYPTION_KEY = 'design24_secure_key_2025'`. -/
def keyCodes : List Nat := "design24_secure_key_2025".toList.map Char.toNat

/-- `ENCRYPTION_KEY.charCodeAt(i % ENCRYPTION_KEY.length)`. -/
def keyAt (i : Nat) : Nat := keyCodes.getD (i % keyCodes.length) 0

/-- The XOR pass of `encrypt`/`decrypt`, starting at position `i`. -/
def xorKeyFrom : Nat → List Nat → List Nat
  | _, [] => []
  | i, c :: cs => (c ^^^ keyAt i) :: xorKeyFrom (i + 1) cs

def xorKey (s : List Nat) : List Nat := xorKeyFrom 0 s

/-- The base64 alphabet as character codes. -/
def b64char (n : Nat) : Nat :=
  if n < 26 then 65 + n
  else if n < 52 then 97 + (n - 26)
  else if n < 62 then 48 + (n - 52)
  else if n = 62 then 43
  else 47

/-- Inverse base64 alphabet lookup. -/
def b64inv (c : Nat) : Nat :=
  if 65 ≤ c ∧ c ≤ 90 then c - 65
  else if 97 ≤ c ∧ c ≤ 122 then c - 97 + 26
  else if 48 ≤ c ∧ c ≤ 57 then c - 48 + 52
  else if c = 43 then 62
  else if c = 47 then 63
  else 0

/-- `btoa` on a byte sequence: standard base64 with `'='` (code 61)
padding. -/
def b64encode : List Nat → List Nat
  | [] => []
  | [a] => [b64char (a / 4), b64char (a % 4 * 16), 61, 61]
  | [a, b] =>
    [b64char (a / 4), b64char (a % 4 * 16 + b / 16), b64char (b % 16 * 4), 61]
  | a :: b :: c :: rest =>
    b64char (a / 4) :: b64char (a % 4 * 16 + b / 16) ::
      b64char (b % 16 * 4 + c / 64) :: b64char (c % 64) :: b64encode rest

/-- `atob` on well-formed base64: four characters decode to three bytes,
or fewer at a padded final block. -/
def b64decode : List Nat → List Nat
  | c1 :: c2 :: c3 :: c4 :: rest =>
    let w1 := b64inv c1
    let w2 := b64inv c2
    if c3 = 61 then [w1 * 4 + w2 / 16]
    else
      let w3 := b64inv c3
      if c4 = 61 then [w1 * 4 + w2 / 16, w2 % 16 * 16 + w3 / 4]
      else
        (w1 * 4 + w2 / 16) :: (w2 % 16 * 16 + w3 / 4) ::
          (w3 % 4 * 64 + b64inv c4) :: b64decode rest
  | _ => []

/-- `encrypt` of `secureRateLimiting`: XOR with the repeating key, then
`btoa`.  Strings are taken as their character-code sequences. -/
def encrypt (data : List Nat) : List Nat := b64encode (xorKey data)

/-- `decrypt` of `secureRateLimiting`: `atob`, then the same XOR pass. -/
def decrypt (encrypted : List Nat) : List Nat := xorKey (b64decode encrypted)

end Obfuscation

/-! ### Helper lemmas for the Session Store -/

namespace SessionStore

theorem firstUserIdx_append_user (xs : List ChatMessage) (u : ChatMessage)
    (ys : List ChatMessage) (hxs : ∀ x ∈ xs, x.isUser = false)
    (hu : u.isUser = true) : firstUserIdx (xs ++ u :: ys) = some xs.length := by
  induction xs with
  | nil => simp [firstUserIdx, hu]
  | cons x xs ih =>
    have hx : x.isUser = false := hxs x (by simp)
    have ih' := ih (fun y hy => hxs y (by simp [hy]))
    simp [firstUserIdx, hx, ih']

theorem firstUserIdx_eq_none (xs : List ChatMessage)
    (hxs : ∀ x ∈ xs, x.isUser = false) : firstUserIdx xs = none := by
  induction xs with
  | nil => rfl
  | cons x xs ih =>
    have hx : x.isUser = false := hxs x (by simp)
    have ih' := ih (fun y hy => hxs y (by simp [hy]))
    simp [firstUserIdx, hx, ih']

theorem lastUserIdx_append_run (p : List ChatMessage) (u : ChatMessage)
    (bs : List ChatMessage) (hu : u.isUser = true)
    (hbs : ∀ b ∈ bs, b.isUser = false) :
    lastUserIdx (p ++ u :: bs) = some p.length := by
  have hrev : (p ++ u :: bs).reverse = bs.reverse ++ u :: p.reverse := by
    simp
  have hfst : firstUserIdx ((p ++ u :: bs).reverse) = some bs.reverse.length := by
    rw [hrev]
    exact firstUserIdx_append_user bs.reverse u p.reverse
      (fun x hx => hbs x (List.mem_reverse.mp hx)) hu
  unfold lastUserIdx
  rw [hfst]
  simp only [Option.map_some', Option.some.injEq, List.length_reverse,
    List.length_append, List.length_cons]
  omega

theorem lastUserIdx_eq_none (l : List ChatMessage)
    (h : ∀ x ∈ l, x.isUser = false) : lastUserIdx l = none := by
  unfold lastUserIdx
  rw [firstUserIdx_eq_none l.reverse (fun x hx => h x (List.mem_reverse.mp hx))]
  rfl

theorem takeWhile_eq_self_of_all {p : ChatMessage → Bool}
    (l : List ChatMessage) (h : ∀ x ∈ l, p x = true) : l.takeWhile p = l := by
  induction l with
  | nil => rfl
  | cons x xs ih =>
    simp only [List.takeWhile_cons, h x (by simp), if_true]
    rw [ih (fun y hy => h y (by simp [hy]))]

/-- Core behaviour of `replaceLastAssistantMessage` on a message list of
the form `p ++ [user] ++ (nonempty run of assistant messages)`: the run
collapses into its first message, which keeps its id and receives the new
text and timestamp. -/
theorem replaceLastAssistantMessage_run (s : ChatSession)
    (p : List ChatMessage) (u b0 : ChatMessage) (bs : List ChatMessage)
    (hs : s.messages = p ++ u :: b0 :: bs) (hu : u.isUser = true)
    (hb0 : b0.isUser = false) (hbs : ∀ b ∈ bs, b.isUser = false)
    (newId : String) (now : Nat) (text : String) :
    (replaceLastAssistantMessage s newId now text).messages
      = p ++ u :: [{ b0 with message := text, timestamp := now }] := by
  have hall : ∀ b ∈ b0 :: bs, b.isUser = false := by
    intro b hb
    rcases List.mem_cons.mp hb with h | h
    · rw [h]; exact hb0
    · exact hbs b h
  have hlast : lastUserIdx (p ++ u :: b0 :: bs) = some p.length :=
    lastUserIdx_append_run p u (b0 :: bs) hu hall
  have hsplit : p ++ u :: b0 :: bs = (p ++ [u]) ++ (b0 :: bs) := by simp
  have hlen : (p ++ [u]).length = p.length + 1 := by simp
  have hdrop : (p ++ u :: b0 :: bs).drop (p.length + 1) = b0 :: bs := by
    rw [hsplit]; exact List.drop_left' hlen
  have htake : (p ++ u :: b0 :: bs).take (p.length + 1) = p ++ [u] := by
    rw [hsplit]; exact List.take_left' hlen
  have htw : (b0 :: bs).takeWhile (fun m => !m.isUser) = b0 :: bs :=
    takeWhile_eq_self_of_all _ (fun x hx => by simp [hall x hx])
  have hdropAll :
      (p ++ u :: b0 :: bs).drop (p.length + 1 + (b0 :: bs).length) = [] := by
    apply List.drop_eq_nil_of_le
    simp only [List.length_append, List.length_cons]
    omega
  have hne : ¬(s.messages = []) := by
    rw [hs]; simp
  unfold replaceLastAssistantMessage
  rw [if_neg hne]
  simp only [hs, hlast, hdrop, htw, htake, hdropAll, hb0, Bool.false_eq_true,
    if_false]
  simp

/-- Claim C1: a session ending in a user message followed by one or more
assistant messages collapses, under `replaceLastAssistantMessage`, to the
same prefix plus a single assistant message carrying the new text; a
second call rewrites the same single message, so the list never grows. -/
theorem claim1_replaceLastAssistant_collapses (s : ChatSession)
    (p : List ChatMessage) (u b0 : ChatMessage) (bs : List ChatMessage)
    (hs : s.messages = p ++ u :: b0 :: bs) (hu : u.isUser = true)
    (hb0 : b0.isUser = false) (hbs : ∀ b ∈ bs, b.isUser = false)
    (id1 id2 : String) (t1 t2 : Nat) (text1 text2 : String) :
    (replaceLastAssistantMessage s id1 t1 text1).messages
        = p ++ u :: [{ b0 with message := text1, timestamp := t1 }] ∧
      (replaceLastAssistantMessage
          (replaceLastAssistantMessage s id1 t1 text1) id2 t2 text2).messages
        = p ++ u :: [{ b0 with message := text2, timestamp := t2 }] := by
  have h1 := replaceLastAssistantMessage_run s p u b0 bs hs hu hb0 hbs id1 t1 text1
  refine ⟨h1, ?_⟩
  have h2 := replaceLastAssistantMessage_run
    (replaceLastAssistantMessage s id1 t1 text1) p u
    { b0 with message := text1, timestamp := t1 } [] (by simpa using h1) hu
    (by simpa using hb0) (by simp) id2 t2 text2
  simpa using h2

/-- Witness for claim C1 at the session `[user "A", assistant "B1",
assistant "B2"]` of the spec, regenerated with `"C"` and then `"D"`. -/
theorem claim1_witness :
    (replaceLastAssistantMessage
        { id := "s", title := "New Chat", lastMessage := "", timestamp := 0,
          messageCount := 3, isCustomTitle := false,
          messages := [⟨"u1", "A", true, 1, none⟩, ⟨"a1", "B1", false, 2, none⟩,
            ⟨"a2", "B2", false, 3, none⟩] } "n1" 5 "C").messages
      = [⟨"u1", "A", true, 1, none⟩, ⟨"a1", "C", false, 5, none⟩] ∧
    (replaceLastAssistantMessage
        (replaceLastAssistantMessage
          { id := "s", title := "New Chat", lastMessage := "", timestamp := 0,
            messageCount := 3, isCustomTitle := false,
            messages := [⟨"u1", "A", true, 1, none⟩, ⟨"a1", "B1", false, 2, none⟩,
              ⟨"a2", "B2", false, 3, none⟩] } "n1" 5 "C") "n2" 6 "D").messages
      = [⟨"u1", "A", true, 1, none⟩, ⟨"a1", "D", false, 6, none⟩] := by
  have h := claim1_replaceLastAssistant_collapses
    { id := "s", title := "New Chat", lastMessage := "", timestamp := 0,
      messageCount := 3, isCustomTitle := false,
      messages := [⟨"u1", "A", true, 1, none⟩, ⟨"a1", "B1", false, 2, none⟩,
        ⟨"a2", "B2", false, 3, none⟩] }
    [] ⟨"u1", "A", true, 1, none⟩ ⟨"a1", "B1", false, 2, none⟩
    [⟨"a2", "B2", false, 3, none⟩] rfl rfl rfl (by decide) "n1" "n2" 5 6 "C" "D"
  exact ⟨h.1, h.2⟩

/-- Claim C8, counterexample: on a session whose message list is empty —
which contains no user message at all — `replaceLastAssistantMessage` is a
no-op, so it does not append the promised assistant message. -/
theorem claim8_counterexample :
    ¬((replaceLastAssistantMessage (createNewChat "c" 0) "n1" 5 "C").messages.length
        = (createNewChat "c" 0).messages.length + 1) := by
  decide

/-- Claim C8 as amended: with an empty message list the call leaves the
session unchanged; on a nonempty session with no user message it collapses
the whole list into its first message, which keeps its id and receives the
new text and timestamp (no message is appended at the end). -/
theorem claim8_amended (s : ChatSession) (newId : String) (now : Nat)
    (text : String) :
    (s.messages = [] → replaceLastAssistantMessage s newId now text = s) ∧
    (∀ m0 rest, s.messages = m0 :: rest → (∀ x ∈ s.messages, x.isUser = false) →
      (replaceLastAssistantMessage s newId now text).messages
        = [{ m0 with message := text, timestamp := now }]) := by
  constructor
  · intro h
    unfold replaceLastAssistantMessage
    rw [if_pos h]
  · intro m0 rest hs hall
    rw [hs] at hall
    have hm0 : m0.isUser = false := hall m0 (by simp)
    have hlast : lastUserIdx (m0 :: rest) = none :=
      lastUserIdx_eq_none _ hall
    have htw : (m0 :: rest).takeWhile (fun m => !m.isUser) = m0 :: rest :=
      takeWhile_eq_self_of_all _ (fun x hx => by simp [hall x hx])
    have hdropAll : (m0 :: rest).drop (0 + (m0 :: rest).length) = [] := by
      apply List.drop_eq_nil_of_le
      omega
    have hne : ¬(s.messages = []) := by rw [hs]; simp
    unfold replaceLastAssistantMessage
    rw [if_neg hne]
    simp only [hs, hlast, List.drop_zero, htw, hdropAll, hm0,
      Bool.false_eq_true, if_false, List.take_zero]
    simp

/-- Witness for the amended claim C8: on `[assistant "B1", assistant "B2"]`
the call collapses the list to one message, and on the empty list it is a
no-op. -/
theorem claim8_witness :
    (replaceLastAssistantMessage
        { id := "s", title := "New Chat", lastMessage := "", timestamp := 0,
          messageCount := 2, isCustomTitle := false,
          messages := [⟨"a1", "B1", false, 2, none⟩, ⟨"a2", "B2", false, 3, none⟩] }
        "n1" 5 "C").messages = [⟨"a1", "C", false, 5, none⟩] ∧
    replaceLastAssistantMessage (createNewChat "c" 0) "n1" 5 "C"
      = createNewChat "c" 0 := by
  constructor
  · have h := (claim8_amended
      { id := "s", title := "New Chat", lastMessage := "", timestamp := 0,
        messageCount := 2, isCustomTitle := false,
        messages := [⟨"a1", "B1", false, 2, none⟩, ⟨"a2", "B2", false, 3, none⟩] }
      "n1" 5 "C").2 ⟨"a1", "B1", false, 2, none⟩ [⟨"a2", "B2", false, 3, none⟩]
      rfl (by decide)
    exact h
  · exact (claim8_amended (createNewChat "c" 0) "n1" 5 "C").1 rfl

/-- `addMessage` always retains exactly the newest
`MAX_MESSAGES_PER_CHAT` of the extended message list: the FIFO cap as one
equation. -/
theorem addMessage_messages (s : ChatSession) (messageId : String)
    (now : Nat) (message : String) (isUser : Bool)
    (images : Option (List String)) :
    (addMessage s messageId now message isUser images).messages
      = (s.messages ++ [(⟨messageId, message, isUser, now, images⟩ : ChatMessage)]).drop
          ((s.messages.length + 1) - MAX_MESSAGES_PER_CHAT) := by
  simp only [addMessage]
  split_ifs with h
  · simp
  · have h0 : s.messages.length + 1 - MAX_MESSAGES_PER_CHAT = 0 := by
      simp only [List.length_append, List.length_cons, List.length_nil] at h
      omega
    rw [h0, List.drop_zero]

/-- `addMessage` never leaves more than `MAX_MESSAGES_PER_CHAT` messages,
whatever the starting length. -/
theorem addMessage_length_le (s : ChatSession) (messageId : String)
    (now : Nat) (message : String) (isUser : Bool)
    (images : Option (List String)) :
    (addMessage s messageId now message isUser images).messages.length
      ≤ MAX_MESSAGES_PER_CHAT := by
  rw [addMessage_messages s messageId now message isUser images]
  simp only [List.length_drop, List.length_append, List.length_cons,
    List.length_nil, MAX_MESSAGES_PER_CHAT]
  omega

/-- Claim C2 as amended: `appendMessage` keeps the message list to the
newest 200 entries (oldest dropped first) and never exceeds the cap, but
`replaceLastAssistantBlock` does not apply the cap (see the
counterexample, which exceeds it from a reachable state). -/
theorem claim2_amended (s : ChatSession) (messageId : String) (now : Nat)
    (message : String) (isUser : Bool) (images : Option (List String)) :
    (addMessage s messageId now message isUser images).messages
        = (s.messages ++ [(⟨messageId, message, isUser, now, images⟩ : ChatMessage)]).drop
            ((s.messages.length + 1) - MAX_MESSAGES_PER_CHAT) ∧
      (addMessage s messageId now message isUser images).messages.length
        ≤ MAX_MESSAGES_PER_CHAT := by
  exact ⟨addMessage_messages s messageId now message isUser images,
    addMessage_length_le s messageId now message isUser images⟩

set_option maxRecDepth 10000 in
/-- Claim C2, counterexample: from a fresh session, 200 `addMessage` calls
with user messages reach a 200-message session ending in a user message —
a state the cap allows — and one `replaceLastAssistantMessage` call then
produces 201 messages, exceeding the cap. -/
theorem claim2_counterexample :
    (replaceLastAssistantMessage
      (appendAll (createNewChat "c" 0)
        (List.replicate 200 ⟨"m", "x", true, 1, none⟩))
      "a" 2 "R").messages.length = 201 := by
  decide

theorem drop_sub_eq_reverse_take {α : Type} (l : List α) (n : Nat) :
    l.drop (l.length - n) = (l.reverse.take n).reverse := by
  have h := List.reverse_take (l := l.reverse) (n := n)
  simpa using h.symm

theorem take_reverse_absorb {α : Type} (n : Nat) (a b : List α) :
    ((((a.reverse.take n).reverse ++ b).reverse.take n)).reverse
      = (((a ++ b).reverse.take n)).reverse := by
  congr 1
  rw [List.reverse_append, List.reverse_reverse, List.reverse_append,
    List.take_append_eq_append_take, List.take_append_eq_append_take,
    List.take_take]
  congr 1
  exact congrArg (fun k => a.reverse.take k) (by simp [Nat.min_def])

/-- Running `appendAll` from a session within the cap keeps exactly the
newest 200 of the old messages plus all appended ones. -/
theorem appendAll_messages (l : List MsgInput) (s : ChatSession)
    (h : s.messages.length ≤ MAX_MESSAGES_PER_CHAT) :
    (appendAll s l).messages
      = ((s.messages ++ l.map mkMessage).reverse.take MAX_MESSAGES_PER_CHAT).reverse := by
  induction l generalizing s with
  | nil =>
    simp only [appendAll, List.foldl_nil, List.map_nil, List.append_nil]
    rw [List.take_of_length_le (by simpa using h), List.reverse_reverse]
  | cons x xs ih =>
    have hstep : (addMessage s x.id x.timestamp x.message x.isUser x.images).messages
        = (((s.messages ++ [mkMessage x]).reverse.take MAX_MESSAGES_PER_CHAT)).reverse := by
      rw [addMessage_messages]
      have := drop_sub_eq_reverse_take (s.messages ++ [mkMessage x])
        MAX_MESSAGES_PER_CHAT
      simpa [mkMessage] using this
    have hlen : (addMessage s x.id x.timestamp x.message x.isUser x.images).messages.length
        ≤ MAX_MESSAGES_PER_CHAT :=
      addMessage_length_le s x.id x.timestamp x.message x.isUser x.images
    have hrec := ih (addMessage s x.id x.timestamp x.message x.isUser x.images) hlen
    calc (appendAll s (x :: xs)).messages
        = (appendAll (addMessage s x.id x.timestamp x.message x.isUser x.images) xs).messages := by
          simp [appendAll]
      _ = (((addMessage s x.id x.timestamp x.message x.isUser x.images).messages
            ++ xs.map mkMessage).reverse.take MAX_MESSAGES_PER_CHAT).reverse := hrec
      _ = ((((s.messages ++ [mkMessage x]).reverse.take MAX_MESSAGES_PER_CHAT).reverse
            ++ xs.map mkMessage).reverse.take MAX_MESSAGES_PER_CHAT).reverse := by
          rw [hstep]
      _ = (((s.messages ++ [mkMessage x] ++ xs.map mkMessage).reverse.take
            MAX_MESSAGES_PER_CHAT)).reverse :=
          take_reverse_absorb MAX_MESSAGES_PER_CHAT (s.messages ++ [mkMessage x])
            (xs.map mkMessage)
      _ = ((s.messages ++ (x :: xs).map mkMessage).reverse.take
            MAX_MESSAGES_PER_CHAT).reverse := by
          simp

/-- Claim C6: appending `N > 200` messages to any session — whatever
messages it already holds — retains exactly the last 200 appended
messages, in their original append order, and the list length is exactly
200 (every pre-existing message is evicted). -/
theorem claim6_fifo_cap (s : ChatSession) (l : List MsgInput)
    (h : l.length > 200) :
    (appendAll s l).messages = (l.map mkMessage).drop (l.length - 200) ∧
      (appendAll s l).messages.length = 200 := by
  obtain ⟨x, xs, rfl⟩ : ∃ x xs, l = x :: xs := by
    cases l with
    | nil => simp at h
    | cons x xs => exact ⟨x, xs, rfl⟩
  have hstep : (addMessage s x.id x.timestamp x.message x.isUser x.images).messages
      = (((s.messages ++ [mkMessage x]).reverse.take MAX_MESSAGES_PER_CHAT)).reverse := by
    rw [addMessage_messages]
    have := drop_sub_eq_reverse_take (s.messages ++ [mkMessage x])
      MAX_MESSAGES_PER_CHAT
    simpa [mkMessage] using this
  have hlen : (addMessage s x.id x.timestamp x.message x.isUser x.images).messages.length
      ≤ MAX_MESSAGES_PER_CHAT :=
    addMessage_length_le s x.id x.timestamp x.message x.isUser x.images
  have hrec := appendAll_messages xs
    (addMessage s x.id x.timestamp x.message x.isUser x.images) hlen
  have hall : (appendAll s (x :: xs)).messages
      = ((s.messages ++ (x :: xs).map mkMessage).reverse.take
          MAX_MESSAGES_PER_CHAT).reverse := by
    calc (appendAll s (x :: xs)).messages
        = (appendAll (addMessage s x.id x.timestamp x.message x.isUser x.images)
            xs).messages := by
          simp [appendAll]
      _ = (((addMessage s x.id x.timestamp x.message x.isUser x.images).messages
            ++ xs.map mkMessage).reverse.take MAX_MESSAGES_PER_CHAT).reverse := hrec
      _ = ((((s.messages ++ [mkMessage x]).reverse.take MAX_MESSAGES_PER_CHAT).reverse
            ++ xs.map mkMessage).reverse.take MAX_MESSAGES_PER_CHAT).reverse := by
          rw [hstep]
      _ = (((s.messages ++ [mkMessage x] ++ xs.map mkMessage).reverse.take
            MAX_MESSAGES_PER_CHAT)).reverse :=
          take_reverse_absorb MAX_MESSAGES_PER_CHAT (s.messages ++ [mkMessage x])
            (xs.map mkMessage)
      _ = ((s.messages ++ (x :: xs).map mkMessage).reverse.take
            MAX_MESSAGES_PER_CHAT).reverse := by
          simp
  have hlb : MAX_MESSAGES_PER_CHAT - ((x :: xs).map mkMessage).reverse.length = 0 := by
    simp only [List.length_reverse, List.length_map, List.length_cons,
      MAX_MESSAGES_PER_CHAT]
    simp only [List.length_cons] at h
    omega
  have hdroppre : (s.messages ++ (x :: xs).map mkMessage).reverse.take
      MAX_MESSAGES_PER_CHAT
      = ((x :: xs).map mkMessage).reverse.take MAX_MESSAGES_PER_CHAT := by
    rw [List.reverse_append, List.take_append_eq_append_take, hlb]
    simp
  have hmsgs : (appendAll s (x :: xs)).messages
      = ((x :: xs).map mkMessage).drop
          (((x :: xs).map mkMessage).length - MAX_MESSAGES_PER_CHAT) := by
    rw [hall, hdroppre, ← drop_sub_eq_reverse_take]
  constructor
  · rw [hmsgs, List.length_map]
    rfl
  · rw [hmsgs]
    simp only [List.length_drop, List.length_map, List.length_cons,
      MAX_MESSAGES_PER_CHAT]
    simp only [List.length_cons] at h
    omega

set_option maxRecDepth 10000 in
/-- Witness for claim C6 with 201 appended messages, starting from a
session that already holds a message (which is evicted). -/
theorem claim6_witness :
    ((List.range 201).map
        (fun i => (⟨toString i, toString i, true, i, none⟩ : MsgInput))).length > 200 ∧
      (appendAll
        { id := "s", title := "T", lastMessage := "old", timestamp := 0,
          messageCount := 1, isCustomTitle := false,
          messages := [⟨"old", "old", false, 0, none⟩] }
        ((List.range 201).map
          (fun i => (⟨toString i, toString i, true, i, none⟩ : MsgInput)))).messages.length
        = 200 :=
  ⟨by decide,
    (claim6_fifo_cap
      { id := "s", title := "T", lastMessage := "old", timestamp := 0,
        messageCount := 1, isCustomTitle := false,
        messages := [⟨"old", "old", false, 0, none⟩] }
      ((List.range 201).map
        (fun i => (⟨toString i, toString i, true, i, none⟩ : MsgInput)))
      (by decide)).2⟩

/-- Once the custom-title flag is set, `addMessage` changes neither the
title nor the flag. -/
theorem addMessage_title_of_custom (s : ChatSession) (mid : String)
    (now : Nat) (m : String) (isUser : Bool) (images : Option (List String))
    (h : s.isCustomTitle = true) :
    (addMessage s mid now m isUser images).title = s.title ∧
      (addMessage s mid now m isUser images).isCustomTitle = true := by
  simp [addMessage, h]

theorem appendAll_title_of_custom (l : List MsgInput) (s : ChatSession)
    (h : s.isCustomTitle = true) :
    (appendAll s l).title = s.title ∧ (appendAll s l).isCustomTitle = true := by
  induction l generalizing s with
  | nil => exact ⟨rfl, h⟩
  | cons x xs ih =>
    have hstep := addMessage_title_of_custom s x.id x.timestamp x.message
      x.isUser x.images h
    have hrec := ih (addMessage s x.id x.timestamp x.message x.isUser x.images)
      hstep.2
    refine ⟨?_, hrec.2⟩
    calc (appendAll s (x :: xs)).title
        = (appendAll (addMessage s x.id x.timestamp x.message x.isUser x.images)
            xs).title := by simp [appendAll]
      _ = (addMessage s x.id x.timestamp x.message x.isUser x.images).title :=
          hrec.1
      _ = s.title := hstep.1

/-- Claim C4 as amended: a fresh session is titled `"New Chat"`; while the
title is the default and not custom, a user message whose trimmed text is
nonempty sets the title — verbatim at length ≤ 50, first 47 characters
plus `"..."` at length 60 (a whitespace-only message leaves the title
unchanged, see the counterexample); and after a rename no sequence of
appended messages ever changes the title. -/
theorem claim4_amended (cid : String) (t0 : Nat) (s : ChatSession)
    (mid : String) (now : Nat) (m : String) (images : Option (List String))
    (newTitle : String) (l : List MsgInput) :
    (createNewChat cid t0).title = "New Chat" ∧
    (s.title = "New Chat" → s.isCustomTitle = false → trimStr m ≠ "" →
      m.length ≤ 50 → (addMessage s mid now m true images).title = m) ∧
    (s.title = "New Chat" → s.isCustomTitle = false → trimStr m ≠ "" →
      m.length = 60 →
      (addMessage s mid now m true images).title = substring0 m 47 ++ "...") ∧
    (appendAll (renameChatSession s newTitle) l).title
      = (renameChatSession s newTitle).title := by
  refine ⟨rfl, ?_, ?_, ?_⟩
  · intro h1 h2 h3 h4
    have hlen : ¬(m.length > 50) := by omega
    simp [addMessage, h1, h2, h3, hlen]
  · intro h1 h2 h3 h4
    have hlen : m.length > 50 := by omega
    simp [addMessage, h1, h2, h3, hlen]
  · exact (appendAll_title_of_custom l (renameChatSession s newTitle) rfl).1

/-- Witness for the amended claim C4: fresh title, verbatim short title,
truncated 60-character title, and a rename surviving a later user
message. -/
theorem claim4_witness :
    (createNewChat "c" 0).title = "New Chat" ∧
    (addMessage (createNewChat "c" 0) "m" 1 "hello" true none).title = "hello" ∧
    (addMessage (createNewChat "c" 0) "m" 1
        (String.mk (List.replicate 60 'x')) true none).title
      = String.mk (List.replicate 47 'x') ++ "..." ∧
    (appendAll (renameChatSession (createNewChat "c" 0) "My title")
        [⟨"m", "changed?", true, 1, none⟩]).title = "My title" := by
  refine ⟨(claim4_amended "c" 0 (createNewChat "c" 0) "m" 1 "hello" none "t" []).1,
    ?_, ?_, ?_⟩
  · have h := (claim4_amended "c" 0 (createNewChat "c" 0) "m" 1 "hello" none
      "t" []).2.1 rfl rfl (by decide) (by decide)
    exact h
  · have h := (claim4_amended "c" 0 (createNewChat "c" 0) "m" 1
      (String.mk (List.replicate 60 'x')) none "t" []).2.2.1 rfl rfl
      (by decide) (by decide)
    rw [h]
    decide
  · have h := (claim4_amended "c" 0 (createNewChat "c" 0) "m" 1 "hello" none
      "My title" [⟨"m", "changed?", true, 1, none⟩]).2.2.2
    rw [h]
    decide

/-- Claim C4, counterexample: a whitespace-only user message of length 1
(≤ 50) does not become the title — the code also requires the trimmed
message to be nonempty, so the title stays `"New Chat"`. -/
theorem claim4_counterexample :
    (" " : String).length ≤ 50 ∧
      (addMessage (createNewChat "c" 0) "m" 1 " " true none).title ≠ " " := by
  decide

theorem mostRecent_foldl_spec (l : List ChatSession) (b : ChatSession) :
    ∃ c, List.foldl
        (fun best s =>
          match best with
          | none => some s
          | some b => if s.timestamp > b.timestamp then some s else some b)
        (some b) l = some c ∧ (c = b ∨ c ∈ l) ∧
      b.timestamp ≤ c.timestamp ∧ ∀ s ∈ l, s.timestamp ≤ c.timestamp := by
  induction l generalizing b with
  | nil => exact ⟨b, rfl, Or.inl rfl, le_refl _, by simp⟩
  | cons x xs ih =>
    by_cases hx : x.timestamp > b.timestamp
    · obtain ⟨c, hc, hmem, hle, hall⟩ := ih x
      refine ⟨c, ?_, ?_, ?_, ?_⟩
      · simpa [hx] using hc
      · rcases hmem with h | h
        · exact Or.inr (by simp [h])
        · exact Or.inr (by simp [h])
      · omega
      · intro s hs
        rcases List.mem_cons.mp hs with h | h
        · rw [h]; exact hle
        · exact hall s h
    · obtain ⟨c, hc, hmem, hle, hall⟩ := ih b
      refine ⟨c, ?_, ?_, hle, ?_⟩
      · simpa [hx] using hc
      · rcases hmem with h | h
        · exact Or.inl h
        · exact Or.inr (by simp [h])
      · intro s hs
        rcases List.mem_cons.mp hs with h | h
        · rw [h]; omega
        · exact hall s h

theorem mostRecent_spec (l : List ChatSession) (c : ChatSession)
    (h : mostRecent l = some c) :
    c ∈ l ∧ ∀ s ∈ l, s.timestamp ≤ c.timestamp := by
  cases l with
  | nil => simp [mostRecent] at h
  | cons x xs =>
    obtain ⟨d, hd, hmem, hle, hall⟩ := mostRecent_foldl_spec xs x
    have hx : mostRecent (x :: xs) = some d := by
      simpa [mostRecent] using hd
    rw [hx] at h
    cases h
    constructor
    · rcases hmem with h | h
      · exact h ▸ List.mem_cons_self x xs
      · exact List.mem_cons_of_mem x h
    · intro s hs
      rcases List.mem_cons.mp hs with h | h
      · rw [h]; exact hle
      · exact hall s h

theorem mostRecent_isSome (l : List ChatSession) (h : l ≠ []) :
    (mostRecent l).isSome := by
  cases l with
  | nil => exact absurd rfl h
  | cons x xs =>
    obtain ⟨d, hd, _, _, _⟩ := mostRecent_foldl_spec xs x
    have hx : mostRecent (x :: xs) = some d := by
      simpa [mostRecent] using hd
    rw [hx]
    rfl

/-- Claim C9: after deleting the current session, the sessions are exactly
the others; if none remain the pointer is cleared; otherwise the pointer
moves to a remaining session of maximal `updatedAt` timestamp — with two
remaining sessions of timestamps `T1 < T2`, to the `T2` one. -/
theorem claim9_delete_current (st : SessionMap) (cid : String)
    (h : st.currentChatId = some cid) :
    (deleteChatSession st cid).sessions
        = st.sessions.filter (fun s => s.id != cid) ∧
    (st.sessions.filter (fun s => s.id != cid) = [] →
      (deleteChatSession st cid).currentChatId = none) ∧
    (st.sessions.filter (fun s => s.id != cid) ≠ [] →
      (mostRecent (st.sessions.filter (fun s => s.id != cid))).isSome) ∧
    (∀ c, mostRecent (st.sessions.filter (fun s => s.id != cid)) = some c →
      (deleteChatSession st cid).currentChatId = some c.id ∧
        c ∈ st.sessions.filter (fun s => s.id != cid) ∧
        ∀ s ∈ st.sessions.filter (fun s => s.id != cid),
          s.timestamp ≤ c.timestamp) ∧
    (∀ s1 s2, st.sessions.filter (fun s => s.id != cid) = [s1, s2] →
      s1.timestamp < s2.timestamp →
      (deleteChatSession st cid).currentChatId = some s2.id) := by
  refine ⟨rfl, ?_, ?_, ?_, ?_⟩
  · intro hnil
    simp [deleteChatSession, h, hnil, mostRecent]
  · intro hne
    exact mostRecent_isSome _ hne
  · intro c hc
    refine ⟨?_, (mostRecent_spec _ c hc).1, (mostRecent_spec _ c hc).2⟩
    simp [deleteChatSession, h, hc]
  · intro s1 s2 hpair hlt
    have hc : mostRecent (st.sessions.filter (fun s => s.id != cid))
        = some s2 := by
      rw [hpair]
      simp [mostRecent, hlt]
    simp [deleteChatSession, h, hc]

/-- Witness for claim C9: deleting the current session `"a"` among
remaining sessions of timestamps 2 < 3 selects the timestamp-3 session. -/
theorem claim9_witness :
    (deleteChatSession
        { sessions :=
            [{ createNewChat "a" 0 with timestamp := 5 },
             { createNewChat "b" 0 with id := "b", timestamp := 2 },
             { createNewChat "c" 0 with id := "c", timestamp := 3 }],
          currentChatId := some "a" } "a").currentChatId = some "c" := by
  have h := (claim9_delete_current
    { sessions :=
        [{ createNewChat "a" 0 with timestamp := 5 },
         { createNewChat "b" 0 with id := "b", timestamp := 2 },
         { createNewChat "c" 0 with id := "c", timestamp := 3 }],
      currentChatId := some "a" } "a" rfl).2.2.2.2
    { createNewChat "b" 0 with id := "b", timestamp := 2 }
    { createNewChat "c" 0 with id := "c", timestamp := 3 }
    (by decide) (by decide)
  exact h

end SessionStore

/-! ### Quota Tracker theorems -/

namespace Quota

theorem zeroUsage_get (role : UserRole) : zeroUsage.get role = 0 := by
  cases role <;> rfl

theorem checkAndReset_of_stale (r : StoredData) (today deviceId : String)
    (h : r.date ≠ today ∨ r.deviceId ≠ deviceId) :
    checkAndResetIfNewDay today deviceId (some r)
      = some (resetData today deviceId) := by
  unfold checkAndResetIfNewDay
  by_cases hdev : r.deviceId = deviceId
  · have hdate : r.date ≠ today := by tauto
    simp [hdev, hdate]
  · simp [hdev]

/-- Claim C3: a stored record whose date is not today or whose device id
is not the current one is fully reset before any counter is read or
incremented — `getRateLimitInfo` reports zero usage for every role and
stores the zeroed record stamped with today and the current device id, and
`incrementUsage` stores that zeroed record with only the given role bumped
to 1. -/
theorem claim3_stale_record_resets (r : StoredData) (role : UserRole)
    (today deviceId : String)
    (h : r.date ≠ today ∨ r.deviceId ≠ deviceId) :
    (getRateLimitInfo role today deviceId (some r)).1.usedToday = 0 ∧
    (getRateLimitInfo role today deviceId (some r)).2
        = some (resetData today deviceId) ∧
    incrementUsage role today deviceId (some r)
        = some { usage := zeroUsage.set role 1, date := today,
                 deviceId := deviceId } := by
  have hreset := checkAndReset_of_stale r today deviceId h
  refine ⟨?_, ?_, ?_⟩
  · simp [getRateLimitInfo, hreset, resetData, zeroUsage_get]
  · simp [getRateLimitInfo, hreset]
  · simp only [incrementUsage, hreset, resetData]
    rw [zeroUsage_get]

/-- Witness for claim C3: stored device id `"X"`, computed device id
`"Y"`, nonzero counters — the next `getRateLimitInfo` reads zero and
overwrites the record. -/
theorem claim3_witness :
    (getRateLimitInfo UserRole.user "Sat Oct 10 2026" "Y"
        (some ⟨⟨5, 7, 9⟩, "Sat Oct 10 2026", "X"⟩)).1.usedToday = 0 ∧
    (getRateLimitInfo UserRole.user "Sat Oct 10 2026" "Y"
        (some ⟨⟨5, 7, 9⟩, "Sat Oct 10 2026", "X"⟩)).2
      = some ⟨⟨0, 0, 0⟩, "Sat Oct 10 2026", "Y"⟩ := by
  have h := claim3_stale_record_resets ⟨⟨5, 7, 9⟩, "Sat Oct 10 2026", "X"⟩
    UserRole.user "Sat Oct 10 2026" "Y" (Or.inr (by decide))
  exact ⟨h.1, h.2.1⟩

theorem validateRateLimit_fst (now : Nat) (deviceId : String)
    (role : UserRole) (cache : VCache)
    (hc : ∀ p ∈ cache, p.2.valid = true) :
    (validateRateLimit now deviceId role cache).1 = true := by
  unfold validateRateLimit lookupCache
  cases hfind : List.find? (fun p => p.1 == cacheKey deviceId role) cache with
  | none => simp [hfind, mockServerValidation]
  | some pr =>
    have hmem : pr ∈ cache := List.mem_of_find?_eq_some hfind
    have hv : pr.2.valid = true := hc pr hmem
    simp only [hfind, Option.map_some']
    split_ifs with htime
    · exact hv
    · rfl

theorem setCache_all_valid (cache : VCache) (k : String) (now : Nat)
    (hc : ∀ p ∈ cache, p.2.valid = true) :
    ∀ p ∈ setCache cache k { valid := true, timestamp := now },
      p.2.valid = true := by
  intro p hp
  unfold setCache at hp
  split_ifs at hp with hfound
  · obtain ⟨q, hq, hpq⟩ := List.mem_map.mp hp
    by_cases hk : q.1 == k
    · rw [if_pos hk] at hpq
      rw [← hpq]
    · rw [if_neg hk] at hpq
      rw [← hpq]
      exact hc q hq
  · rcases List.mem_append.mp hp with h | h
    · exact hc p h
    · have : p = (k, { valid := true, timestamp := now }) := by
        simpa using h
      rw [this]

theorem validateRateLimit_preserves (now : Nat) (deviceId : String)
    (role : UserRole) (cache : VCache)
    (hc : ∀ p ∈ cache, p.2.valid = true) :
    ∀ p ∈ (validateRateLimit now deviceId role cache).2, p.2.valid = true := by
  unfold validateRateLimit lookupCache
  cases hfind : List.find? (fun p => p.1 == cacheKey deviceId role) cache with
  | none =>
    simp only [hfind, Option.map_none', mockServerValidation]
    exact setCache_all_valid cache _ now hc
  | some pr =>
    simp only [hfind, Option.map_some']
    split_ifs with htime
    · exact hc
    · exact setCache_all_valid cache _ now hc

theorem getRateLimitInfo_remaining_eq (role : UserRole)
    (today deviceId : String) (stored : Option StoredData) :
    (getRateLimitInfo role today deviceId stored).1.remaining
      = if (dailyLimit role == -1) then (-1 : Int)
        else max 0 (dailyLimit role
          - ((getRateLimitInfo role today deviceId stored).1.usedToday : Int)) :=
  rfl

theorem getRateLimitInfo_isUnlimited_eq (role : UserRole)
    (today deviceId : String) (stored : Option StoredData) :
    (getRateLimitInfo role today deviceId stored).1.isUnlimited
      = (dailyLimit role == -1) :=
  rfl

theorem canSendMessage_fst (role : UserRole) (today deviceId : String)
    (now : Nat) (stored : Option StoredData) (cache : VCache)
    (hc : ∀ p ∈ cache, p.2.valid = true) :
    (canSendMessage role today deviceId now stored cache).1
      = ((getRateLimitInfo role today deviceId stored).1.isUnlimited
          || decide
            (0 < (getRateLimitInfo role today deviceId stored).1.remaining)) := by
  unfold canSendMessage
  by_cases hl : ((getRateLimitInfo role today deviceId stored).1.isUnlimited
      || decide (0 < (getRateLimitInfo role today deviceId stored).1.remaining))
      = true
  · simp [hl, validateRateLimit_fst now deviceId role cache hc]
  · have hl' := Bool.eq_false_iff.mpr hl
    simp [hl']

/-- Claim C7: `canSendMessage` returns true exactly when the role's daily
limit is the unlimited sentinel `-1` or the (reconciled) remaining count
is positive, with `remaining = max 0 (dailyLimit - usedToday)` for limited
roles; cached server verdicts stay positive; and the admin role (the
unlimited one) can always send, in every reachable state. -/
theorem claim7_canSend_iff (role : UserRole) (today deviceId : String)
    (now : Nat) (stored : Option StoredData) (cache : VCache)
    (hc : ∀ p ∈ cache, p.2.valid = true) :
    ((canSendMessage role today deviceId now stored cache).1 = true ↔
      (dailyLimit role = -1 ∨
        0 < (getRateLimitInfo role today deviceId stored).1.remaining)) ∧
    ((getRateLimitInfo role today deviceId stored).1.isUnlimited = false →
      (getRateLimitInfo role today deviceId stored).1.remaining
        = max 0 (dailyLimit role
            - ((getRateLimitInfo role today deviceId stored).1.usedToday : Int))) ∧
    (∀ p ∈ (canSendMessage role today deviceId now stored cache).2.2,
      p.2.valid = true) ∧
    (canSendMessage UserRole.admin today deviceId now stored cache).1 = true := by
  refine ⟨?_, ?_, ?_, ?_⟩
  · rw [canSendMessage_fst role today deviceId now stored cache hc,
      getRateLimitInfo_isUnlimited_eq]
    simp [Bool.or_eq_true, decide_eq_true_iff]
  · intro h
    rw [getRateLimitInfo_isUnlimited_eq] at h
    rw [getRateLimitInfo_remaining_eq, h]
    rfl
  · unfold canSendMessage
    by_cases hl : ((getRateLimitInfo role today deviceId stored).1.isUnlimited
        || decide
          (0 < (getRateLimitInfo role today deviceId stored).1.remaining))
        = true
    · simpa [hl] using validateRateLimit_preserves now deviceId role cache hc
    · have hl' := Bool.eq_false_iff.mpr hl
      simpa [hl'] using hc
  · rw [canSendMessage_fst UserRole.admin today deviceId now stored cache hc,
      getRateLimitInfo_isUnlimited_eq]
    rfl

/-- Witness for claim C7: an admin who has already recorded three sends
may still send, and a user with all 30 sends used may not. -/
theorem claim7_witness :
    (canSendMessage UserRole.admin "D" "X" 0
        (some ⟨⟨3, 30, 0⟩, "D", "X"⟩) []).1 = true ∧
      ¬((canSendMessage UserRole.user "D" "X" 0
          (some ⟨⟨3, 30, 0⟩, "D", "X"⟩) []).1 = true) := by
  have h := claim7_canSend_iff UserRole.user "D" "X" 0
    (some ⟨⟨3, 30, 0⟩, "D", "X"⟩) [] (by simp)
  have hadmin := (claim7_canSend_iff UserRole.admin "D" "X" 0
    (some ⟨⟨3, 30, 0⟩, "D", "X"⟩) [] (by simp)).2.2.2
  refine ⟨hadmin, ?_⟩
  rw [h.1]
  decide

/-- Claim C5 as amended: a malformed stored value degrades to
empty/default state on the paths that guard their parse — Session Store
initialization yields zero sessions and no current pointer, and the
secure Quota Tracker reads the blob as absent, so `getRateLimitInfo`
reports zero usage and `incrementUsage` still succeeds, starting from
zero.  (The legacy `rateLimiting.ts` read path does not guard its
`JSON.parse` and propagates the exception — see the counterexample.) -/
theorem claim5_amended (parseS : String → Option (List SessionStore.ChatSession))
    (v : String) (h1 : parseS v = none)
    (parseD : String → Option StoredData) (decryptS : String → String)
    (raw : String) (h2 : parseD (decryptS raw) = none)
    (role : UserRole) (today deviceId : String) :
    SessionStore.useChatSessionsInit parseS (some v)
        = { sessions := [], currentChatId := none } ∧
    getStoredData parseD decryptS (some raw) = none ∧
    (getRateLimitInfo role today deviceId
        (getStoredData parseD decryptS (some raw))).1.usedToday = 0 ∧
    incrementUsage role today deviceId
        (getStoredData parseD decryptS (some raw))
      = some { usage := zeroUsage.set role 1, date := today,
               deviceId := deviceId } := by
  have hstored : getStoredData parseD decryptS (some raw) = none := by
    simp [getStoredData, h2]
  refine ⟨?_, hstored, ?_, ?_⟩
  · simp [SessionStore.useChatSessionsInit, h1]
  · rw [hstored]
    simp [getRateLimitInfo, checkAndResetIfNewDay, resetData, zeroUsage_get]
  · rw [hstored]
    simp only [incrementUsage, checkAndResetIfNewDay, resetData]
    rw [zeroUsage_get]

/-- Witness for the amended claim C5 on an unparsable stored blob. -/
theorem claim5_witness :
    SessionStore.useChatSessionsInit (fun _ => none) (some "garbage")
        = { sessions := [], currentChatId := none } ∧
    (getRateLimitInfo UserRole.user "D" "X"
        (getStoredData (fun _ => none) id (some "garbage"))).1.usedToday = 0 := by
  have h := claim5_amended (fun _ => none) "garbage" rfl (fun _ => none) id
    "garbage" rfl UserRole.user "D" "X"
  exact ⟨h.1, h.2.2.1⟩

/-- Claim C5, counterexample: the legacy `rateLimiting.ts` quota service
parses the stored usage value without a catch, so when the stored date is
today's and the usage value is malformed, `getRateLimitInfo` — its
`getStatus` read path — propagates the `JSON.parse` exception instead of
degrading to the zeroed default. -/
theorem claim5_counterexample :
    legacyGetRateLimitInfo UserRole.user "Sat Oct 10 2026"
        { usageCell := StoredCell.malformed, dateCell := some "Sat Oct 10 2026" }
      = Except.error () := by
  rfl

end Quota

/-! ### Obfuscation-layer theorems -/

namespace Obfuscation

theorem b64inv_b64char : ∀ n, n < 64 → b64inv (b64char n) = n := by
  decide

theorem b64char_ne_pad : ∀ n, n < 64 → b64char n ≠ 61 := by
  decide

theorem b64_roundtrip :
    ∀ l : List Nat, (∀ c ∈ l, c < 256) → b64decode (b64encode l) = l
  | [] => fun _ => rfl
  | [a] => fun h => by
    have ha : a < 256 := h a (by simp)
    have h1 : a / 4 < 64 := by omega
    have h2 : a % 4 * 16 < 64 := by omega
    simp only [b64encode, b64decode, if_pos rfl, if_true, b64inv_b64char _ h1,
      b64inv_b64char _ h2, List.cons.injEq, and_true]
    omega
  | [a, b] => fun h => by
    have ha : a < 256 := h a (by simp)
    have hb : b < 256 := h b (by simp)
    have h1 : a / 4 < 64 := by omega
    have h2 : a % 4 * 16 + b / 16 < 64 := by omega
    have h3 : b % 16 * 4 < 64 := by omega
    simp only [b64encode, b64decode, if_neg (b64char_ne_pad _ h3),
      b64inv_b64char _ h1, b64inv_b64char _ h2, b64inv_b64char _ h3,
      if_pos rfl, if_true, List.cons.injEq, and_true]
    constructor <;> omega
  | a :: b :: c :: rest => fun h => by
    have ha : a < 256 := h a (by simp)
    have hb : b < 256 := h b (by simp)
    have hc : c < 256 := h c (by simp)
    have ih := b64_roundtrip rest (fun x hx => h x (by simp [hx]))
    have h1 : a / 4 < 64 := by omega
    have h2 : a % 4 * 16 + b / 16 < 64 := by omega
    have h3 : b % 16 * 4 + c / 64 < 64 := by omega
    have h4 : c % 64 < 64 := by omega
    simp only [b64encode, b64decode, if_neg (b64char_ne_pad _ h3),
      if_neg (b64char_ne_pad _ h4), if_true, b64inv_b64char _ h1,
      b64inv_b64char _ h2, b64inv_b64char _ h3, b64inv_b64char _ h4, ih,
      List.cons.injEq, and_true]
    refine ⟨?_, ?_, ?_⟩ <;> omega

theorem keyAt_lt : ∀ i : Nat, keyAt i < 128 := by
  intro i
  have hlen : keyCodes.length = 24 := by decide
  have hall : ∀ j, j < 24 → keyCodes.getD j 0 < 128 := by decide
  unfold keyAt
  rw [hlen]
  exact hall _ (Nat.mod_lt _ (by omega))

theorem xorKeyFrom_involutive :
    ∀ (i : Nat) (s : List Nat), xorKeyFrom i (xorKeyFrom i s) = s := by
  intro i s
  induction s generalizing i with
  | nil => rfl
  | cons c cs ih =>
    simp [xorKeyFrom, ih, Nat.xor_cancel_right]

theorem xorKeyFrom_lt (i : Nat) (s : List Nat) (h : ∀ c ∈ s, c < 256) :
    ∀ c ∈ xorKeyFrom i s, c < 256 := by
  induction s generalizing i with
  | nil => simp [xorKeyFrom]
  | cons d ds ih =>
    intro c hcmem
    rcases List.mem_cons.mp hcmem with hcm | hcm
    · rw [hcm]
      have h1 : d < 2 ^ 8 := h d (by simp)
      have h2 : keyAt i < 2 ^ 8 := lt_trans (keyAt_lt i) (by omega)
      exact Nat.xor_lt_two_pow h1 h2
    · exact ih (i + 1) (fun x hx => h x (by simp [hx])) c hcm

/-- Claim C10: for ASCII payloads (all character codes below 128 — in
particular every JSON blob the tracker writes), `decrypt` is a left
inverse of `encrypt`: the XOR-then-base64 obfuscation loses nothing. -/
theorem claim10_decrypt_encrypt (s : List Nat) (h : ∀ c ∈ s, c < 128) :
    decrypt (encrypt s) = s := by
  unfold encrypt decrypt xorKey
  rw [b64_roundtrip (xorKeyFrom 0 s)
    (xorKeyFrom_lt 0 s (fun c hc => lt_trans (h c hc) (by omega)))]
  exact xorKeyFrom_involutive 0 s

/-- Witness for claim C10: the character codes of `"hi!"` survive the
round trip. -/
theorem claim10_witness :
    decrypt (encrypt [104, 105, 33]) = [104, 105, 33] :=
  claim10_decrypt_encrypt [104, 105, 33] (by decide)

end Obfuscation

end Design24
